import Mathlib

set_option maxRecDepth 8192

namespace WebClient

/- ----------------------------------------------------------------------------
Shallow embedding of src/vs/server/webClientServer.ts.

Strings model JavaScript strings; association lists with unique keys model
JavaScript objects and Maps (in enumeration / insertion order); `Option`
models `undefined`; a `none` result of a fallible primitive models a thrown
exception.
---------------------------------------------------------------------------- -/

/-- JavaScript truthiness-based defaulting for strings: models `a || b` where
`a` is a string or undefined (empty string and undefined are falsy). -/
def jsOr (a : Option String) (b : String) : String :=
  match a with
  | none => b
  | some s => if s = "" then b else s

/-- JavaScript falsiness of a string-or-undefined value (`!x`). -/
def isFalsyStr (v : Option String) : Bool :=
  match v with
  | none => true
  | some s => s = ""

/-- Value of a hex digit, as accepted by `decodeURIComponent` escapes
(code points of 0-9, A-F, a-f). -/
def hexVal (c : Char) : Option Nat :=
  let n := c.toNat
  if 48 ≤ n ∧ n ≤ 57 then some (n - 48)
  else if 65 ≤ n ∧ n ≤ 70 then some (n - 55)
  else if 97 ≤ n ∧ n ≤ 102 then some (n - 87)
  else none

/-- UTF-8 encoding of a single character, as a list of byte values. -/
def utf8Bytes (c : Char) : List Nat :=
  let n := c.toNat
  if n < 128 then [n]
  else if n < 2048 then [192 + n / 64, 128 + n % 64]
  else if n < 65536 then [224 + n / 4096, 128 + (n / 64) % 64, 128 + n % 64]
  else [240 + n / 262144, 128 + (n / 4096) % 64, 128 + (n / 64) % 64, 128 + n % 64]

/-- Strict UTF-8 decoding of a byte list (rejecting overlong encodings,
surrogates and out-of-range code points), as performed by the ECMAScript
URI-decoding algorithm. `none` models a thrown `URIError`. -/
def utf8Decode : List Nat → Option (List Char)
  | [] => some []
  | b :: rest =>
    if b < 128 then
      match utf8Decode rest with
      | some cs => some (Char.ofNat b :: cs)
      | none => none
    else if b < 194 then none
    else if b < 224 then
      match rest with
      | b2 :: rest2 =>
        if 128 ≤ b2 ∧ b2 < 192 then
          match utf8Decode rest2 with
          | some cs => some (Char.ofNat ((b - 192) * 64 + (b2 - 128)) :: cs)
          | none => none
        else none
      | [] => none
    else if b < 240 then
      match rest with
      | b2 :: b3 :: rest3 =>
        if 128 ≤ b2 ∧ b2 < 192 ∧ 128 ≤ b3 ∧ b3 < 192 then
          let cp := (b - 224) * 4096 + (b2 - 128) * 64 + (b3 - 128)
          if 2048 ≤ cp ∧ (cp < 55296 ∨ 57344 ≤ cp) then
            match utf8Decode rest3 with
            | some cs => some (Char.ofNat cp :: cs)
            | none => none
          else none
        else none
      | _ => none
    else if b < 245 then
      match rest with
      | b2 :: b3 :: b4 :: rest4 =>
        if 128 ≤ b2 ∧ b2 < 192 ∧ 128 ≤ b3 ∧ b3 < 192 ∧ 128 ≤ b4 ∧ b4 < 192 then
          let cp := (b - 240) * 262144 + (b2 - 128) * 4096 + (b3 - 128) * 64 + (b4 - 128)
          if 65536 ≤ cp ∧ cp ≤ 1114111 then
            match utf8Decode rest4 with
            | some cs => some (Char.ofNat cp :: cs)
            | none => none
          else none
        else none
      | _ => none
    else none

/-- Percent-decoding of a character sequence to a byte sequence: each `%XY`
escape contributes the byte `0xXY`, every other character contributes its
UTF-8 bytes. `none` models a thrown `URIError` (malformed escape). -/
def percentDecode : List Char → Option (List Nat)
  | [] => some []
  | '%' :: rest =>
    match rest with
    | a :: b :: rest2 =>
      match hexVal a, hexVal b with
      | some ha, some hb =>
        match percentDecode rest2 with
        | some bs => some ((16 * ha + hb) :: bs)
        | none => none
      | _, _ => none
    | _ => none
  | c :: rest =>
    match percentDecode rest with
    | some bs => some (utf8Bytes c ++ bs)
    | none => none

/-- Models the JavaScript builtin `decodeURIComponent`; `none` models a
thrown `URIError` (malformed escape or invalid UTF-8 in the decoded bytes). -/
def decodeURIComponent (s : String) : Option String :=
  match percentDecode s.data with
  | none => none
  | some bs =>
    match utf8Decode bs with
    | some cs => some (String.mk cs)
    | none => none

/-- Characters left unescaped by the JavaScript builtin `encodeURIComponent`
(and by node's `querystring` escape, which uses the same set):
alphanumerics and `- _ . ! ~ * ( )` and the apostrophe. -/
def uriUnreserved (c : Char) : Bool :=
  ('A' ≤ c ∧ c ≤ 'Z') ∨ ('a' ≤ c ∧ c ≤ 'z') ∨ ('0' ≤ c ∧ c ≤ '9') ∨
    c ∈ ['-', '_', '.', '!', '~', '*', '(', ')', '\x27']

/-- Upper-case hex digit for a value below 16. -/
def hexDigitUpper (n : Nat) : Char :=
  if n < 10 then Char.ofNat ('0'.toNat + n) else Char.ofNat ('A'.toNat + n - 10)

/-- Models the JavaScript builtin `encodeURIComponent`: percent-encodes the
UTF-8 bytes of every character outside the unreserved set. -/
def encodeURIComponent (s : String) : String :=
  String.mk ((s.data.map (fun c =>
    if uriUnreserved c then [c]
    else ((utf8Bytes c).map (fun b => ['%', hexDigitUpper (b / 16), hexDigitUpper (b % 16)])).flatten)).flatten)

/-- First-match association-list lookup (JavaScript object property access /
`Map.get`; keys are unique in both). -/
def assocGet {α : Type} : List (String × α) → String → Option α
  | [], _ => none
  | (k', v) :: rest, k => if k' = k then some v else assocGet rest k

/-- JavaScript `Map.set` semantics: replace the value of an existing key in
place (preserving its position), otherwise append the new entry. -/
def mapSet {α : Type} : List (String × α) → String → α → List (String × α)
  | [], k, v => [(k, v)]
  | (k', v') :: rest, k, v =>
    if k' = k then (k, v) :: rest else (k', v') :: mapSet rest k v

/-- JavaScript `Map.delete` semantics: remove the entry of the key. -/
def mapDelete {α : Type} : List (String × α) → String → List (String × α)
  | [], _ => []
  | (k', v') :: rest, k => if k' = k then rest else (k', v') :: mapDelete rest k

/-- A value of node's parsed query object: `url.parse(..., true)` stores a
plain string for a key that occurs once and an array of strings for a key
that occurs several times. -/
inductive QueryVal where
  | str (s : String)
  | arr (l : List String)
deriving DecidableEq

/-- A parsed query object (`parsedUrl.query`): unique keys, listed in the
object's enumeration order. -/
abbrev Query := List (String × QueryVal)

/-- WebClientServer._getFirstQueryValue: the value of the key, taking the
first element when the parsed value is an array. -/
def getFirstQueryValue (q : Query) (key : String) : Option String :=
  match assocGet q key with
  | some (.str s) => some s
  | some (.arr l) => l.head?
  | none => none

/-- WebClientServer._getFirstQueryValues: first values of all keys not in
`ignoreKeys`, in the query object's enumeration order. -/
def getFirstQueryValues (q : Query) (ignoreKeys : List String) : List (String × String) :=
  q.filterMap (fun kv =>
    if ignoreKeys.contains kv.1 then none
    else
      match getFirstQueryValue q kv.1 with
      | some v => some (kv.1, v)
      | none => none)

/-- URI components as stored by the callback broker
(`URI.from({...}).toJSON()`); absent components are empty strings. -/
structure UriComponents where
  scheme : String
  authority : String
  path : String
  query : String
  fragment : String
deriving DecidableEq

/-- The broker's mapping `_mapCallbackUriToRequestId : Map<string, UriComponents>`. -/
abbrev CallbackMap := List (String × UriComponents)

/-- The six well-known callback query keys, in source order. -/
def wellKnownKeys : List String :=
  ["vscode-requestId", "vscode-scheme", "vscode-authority", "vscode-path",
   "vscode-query", "vscode-fragment"]

/-- The per-key step of `_handleCallback`'s well-known-key extraction:
`if (value) return decodeURIComponent(value); return value;`.
Outer `none` models a thrown `URIError`. -/
def decodeIfTruthy (v : Option String) : Option (Option String) :=
  match v with
  | none => some none
  | some s => if s = "" then some (some "") else
      match decodeURIComponent s with
      | some d => some (some d)
      | none => none

/-- One iteration of `_handleCallback`'s query-merging loop: state is the
accumulated query (`undefined` modelled as `none`) and the running index;
`if (!query) query = ''` then `query += prefix + key + '=' + value` where
the separator is empty exactly when the index is 0. -/
def mergeStep (acc : Option String × Nat) (kv : String × String) : Option String × Nat :=
  let q0 := match acc.1 with
    | none => ""
    | some s => s
  let sep := if acc.2 = 0 then "" else "&"
  (some (q0 ++ sep ++ kv.1 ++ "=" ++ kv.2), acc.2 + 1)

/-- The query-merging loop of `_handleCallback` (lines 449-459): folds the
extra (non-well-known) first query values over the decoded `vscode-query`. -/
def mergeExtras (vscodeQuery : Option String) (extras : List (String × String)) : Option String :=
  (extras.foldl mergeStep (vscodeQuery, 0)).1

/-- Modelled from the spec: `URI.from({...}).toJSON()` (vs/base/common/uri is
not under src/). Per the spec's data model the composed URI-components
`scheme, authority, path, query, fragment` are stored as given, with absent
components as empty strings. The scheme default `vscodeScheme || urlProtocol`
is taken verbatim from the source (line 462). -/
def composeCallbackUri (urlProtocol : String)
    (vscodeScheme vscodeAuthority vscodePath vscodeQuery vscodeFragment : Option String)
    (extras : List (String × String)) : UriComponents :=
  { scheme := jsOr vscodeScheme urlProtocol
    authority := vscodeAuthority.getD ""
    path := vscodePath.getD ""
    query := (mergeExtras vscodeQuery extras).getD ""
    fragment := vscodeFragment.getD "" }

/-- The pure part of `WebClientServer._handleCallback`: extracts and decodes
the six well-known query values, and on success computes the
`(requestId, UriComponents)` pair stored into the broker's map.
Outer `none`: `decodeURIComponent` threw (the error propagates to `handle`'s
catch-all, a 500). Inner `none`: falsy `vscode-requestId` (400 Bad request). -/
def callbackProcess (urlProtocol : String) (q : Query) :
    Option (Option (String × UriComponents)) :=
  match decodeIfTruthy (getFirstQueryValue q "vscode-requestId"),
        decodeIfTruthy (getFirstQueryValue q "vscode-scheme"),
        decodeIfTruthy (getFirstQueryValue q "vscode-authority"),
        decodeIfTruthy (getFirstQueryValue q "vscode-path"),
        decodeIfTruthy (getFirstQueryValue q "vscode-query"),
        decodeIfTruthy (getFirstQueryValue q "vscode-fragment") with
  | some requestId, some sch, some auth, some pa, some qy, some fr =>
    match requestId with
    | none => some none
    | some r =>
      if r = "" then some none
      else some (some (r,
        composeCallbackUri urlProtocol sch auth pa qy fr
          (getFirstQueryValues q wellKnownKeys)))
  | _, _, _, _, _, _ => none

/-- Response of `_handleCallback`: 400 plain text, the served callback.html
landing page (always 200), or a propagated exception. -/
inductive CallbackOutcome where
  | badRequest
  | callbackPage
  | thrown
deriving DecidableEq

/-- WebClientServer._handleCallback: state transition on the broker's map
plus the response. On success the composed URI is stored under the decoded
request id, unconditionally overwriting any prior entry (`Map.set`). -/
def handleCallback (urlProtocol : String) (m : CallbackMap) (q : Query) :
    CallbackMap × CallbackOutcome :=
  match callbackProcess urlProtocol q with
  | none => (m, .thrown)
  | some none => (m, .badRequest)
  | some (some (r, u)) => (mapSet m r u, .callbackPage)

/-- Response of `_handleFetchCallback`: 400 plain text, or 200 with the JSON
serialization of the looked-up URI components (`undefined` when absent). -/
inductive FetchOutcome where
  | badRequest
  | ok (uri : Option UriComponents)
deriving DecidableEq

/-- WebClientServer._handleFetchCallback: requires a truthy
`vscode-requestId` (not decoded); looks the id up and, if found, deletes the
entry before responding with it. -/
def handleFetchCallback (m : CallbackMap) (q : Query) : CallbackMap × FetchOutcome :=
  match getFirstQueryValue q "vscode-requestId" with
  | none => (m, .badRequest)
  | some r =>
    if r = "" then (m, .badRequest)
    else
      match assocGet m r with
      | some u => (mapDelete m r, .ok (some u))
      | none => (m, .ok none)

theorem assocGet_mapSet_self {α : Type} (m : List (String × α)) (k : String) (v : α) :
    assocGet (mapSet m k v) k = some v := by
  induction m with
  | nil => simp [mapSet, assocGet]
  | cons kv rest ih =>
    obtain ⟨k', v'⟩ := kv
    by_cases h : k' = k
    · simp [mapSet, h, assocGet]
    · simp [mapSet, h, assocGet, ih]

theorem assocGet_mapSet_ne {α : Type} (m : List (String × α)) (k k' : String) (v : α)
    (h : k' ≠ k) : assocGet (mapSet m k v) k' = assocGet m k' := by
  induction m with
  | nil => simp [mapSet, assocGet, Ne.symm h]
  | cons kv rest ih =>
    obtain ⟨k0, v0⟩ := kv
    by_cases h0 : k0 = k
    · subst h0
      simp [mapSet, assocGet, Ne.symm h]
    · by_cases h1 : k0 = k' <;> simp [mapSet, assocGet, h0, h1, h, ih]

theorem assocGet_eq_none_of_not_mem {α : Type} (m : List (String × α)) (k : String)
    (h : k ∉ m.map Prod.fst) : assocGet m k = none := by
  induction m with
  | nil => simp [assocGet]
  | cons kv rest ih =>
    obtain ⟨k', v'⟩ := kv
    simp only [List.map_cons, List.mem_cons] at h
    push_neg at h
    simp [assocGet, Ne.symm h.1, ih h.2]

theorem assocGet_mapDelete_mapSet_self {α : Type} (m : List (String × α)) (k : String) (v : α)
    (h : (m.map Prod.fst).Nodup) : assocGet (mapDelete (mapSet m k v) k) k = none := by
  induction m with
  | nil => simp [mapSet, mapDelete, assocGet]
  | cons kv rest ih =>
    obtain ⟨k0, v0⟩ := kv
    simp only [List.map_cons, List.nodup_cons] at h
    by_cases h0 : k0 = k
    · subst h0
      simp only [mapSet, if_pos rfl, mapDelete, if_pos rfl]
      exact assocGet_eq_none_of_not_mem rest k0 h.1
    · simp [mapSet, mapDelete, h0, assocGet, ih h.2]

/-- C1: registering a callback under a non-empty request id and then
consuming that id returns exactly the URI components the registration
stored, and a second consume with no intervening register returns an absent
value: the entry is deleted by the first successful consume. -/
theorem callback_register_consume_roundtrip
    (urlProtocol : String) (m : CallbackMap) (q : Query) (r : String) (u : UriComponents)
    (hkeys : (m.map Prod.fst).Nodup)
    (hr : r ≠ "")
    (hreg : callbackProcess urlProtocol q = some (some (r, u))) :
    handleCallback urlProtocol m q = (mapSet m r u, CallbackOutcome.callbackPage) ∧
    handleFetchCallback (mapSet m r u) [("vscode-requestId", QueryVal.str r)] =
      (mapDelete (mapSet m r u) r, FetchOutcome.ok (some u)) ∧
    handleFetchCallback (mapDelete (mapSet m r u) r) [("vscode-requestId", QueryVal.str r)] =
      (mapDelete (mapSet m r u) r, FetchOutcome.ok none) := by
  refine ⟨?_, ?_, ?_⟩
  · simp [handleCallback, hreg]
  · simp [handleFetchCallback, getFirstQueryValue, assocGet, hr,
      assocGet_mapSet_self m r u]
  · simp [handleFetchCallback, getFirstQueryValue, assocGet, hr,
      assocGet_mapDelete_mapSet_self m r u hkeys]

/-- Witness for C1 at the spec's own example: register "abc" with
scheme vscode and path /open, then consume twice. -/
theorem callback_register_consume_roundtrip_witness :
    handleCallback "vscode" []
      [("vscode-requestId", QueryVal.str "abc"), ("vscode-scheme", QueryVal.str "vscode"),
       ("vscode-path", QueryVal.str "/open")] =
      (mapSet [] "abc" ⟨"vscode", "", "/open", "", ""⟩, CallbackOutcome.callbackPage) ∧
    handleFetchCallback (mapSet [] "abc" ⟨"vscode", "", "/open", "", ""⟩)
      [("vscode-requestId", QueryVal.str "abc")] =
      (mapDelete (mapSet [] "abc" ⟨"vscode", "", "/open", "", ""⟩) "abc",
       FetchOutcome.ok (some ⟨"vscode", "", "/open", "", ""⟩)) ∧
    handleFetchCallback (mapDelete (mapSet [] "abc" ⟨"vscode", "", "/open", "", ""⟩) "abc")
      [("vscode-requestId", QueryVal.str "abc")] =
      (mapDelete (mapSet [] "abc" ⟨"vscode", "", "/open", "", ""⟩) "abc",
       FetchOutcome.ok none) :=
  callback_register_consume_roundtrip "vscode" []
    [("vscode-requestId", QueryVal.str "abc"), ("vscode-scheme", QueryVal.str "vscode"),
     ("vscode-path", QueryVal.str "/open")]
    "abc" ⟨"vscode", "", "/open", "", ""⟩ (by decide) (by decide) (by decide)

/-- C4: a second registration under the same request id unconditionally
overwrites the first (`Map.set`), and a subsequent consume returns only the
second registration's URI components. -/
theorem callback_register_overwrites
    (urlProtocol : String) (m : CallbackMap) (q1 q2 : Query) (r : String)
    (u1 u2 : UriComponents)
    (hr : r ≠ "")
    (h1 : callbackProcess urlProtocol q1 = some (some (r, u1)))
    (h2 : callbackProcess urlProtocol q2 = some (some (r, u2))) :
    (handleCallback urlProtocol (handleCallback urlProtocol m q1).1 q2).1 =
      mapSet (mapSet m r u1) r u2 ∧
    assocGet (mapSet (mapSet m r u1) r u2) r = some u2 ∧
    handleFetchCallback (mapSet (mapSet m r u1) r u2) [("vscode-requestId", QueryVal.str r)] =
      (mapDelete (mapSet (mapSet m r u1) r u2) r, FetchOutcome.ok (some u2)) := by
  refine ⟨?_, assocGet_mapSet_self _ r u2, ?_⟩
  · simp [handleCallback, h1, h2]
  · simp [handleFetchCallback, getFirstQueryValue, assocGet, hr,
      assocGet_mapSet_self (mapSet m r u1) r u2]

/-- Witness for C4: two registrations of id "abc" with different paths;
consuming yields the second path only. -/
theorem callback_register_overwrites_witness :
    (handleCallback "vscode"
        (handleCallback "vscode" []
          [("vscode-requestId", QueryVal.str "abc"), ("vscode-path", QueryVal.str "/one")]).1
        [("vscode-requestId", QueryVal.str "abc"), ("vscode-path", QueryVal.str "/two")]).1 =
      mapSet (mapSet [] "abc" (⟨"vscode", "", "/one", "", ""⟩ : UriComponents)) "abc"
        (⟨"vscode", "", "/two", "", ""⟩ : UriComponents) ∧
    assocGet (mapSet (mapSet [] "abc" (⟨"vscode", "", "/one", "", ""⟩ : UriComponents)) "abc"
        (⟨"vscode", "", "/two", "", ""⟩ : UriComponents)) "abc" =
      some (⟨"vscode", "", "/two", "", ""⟩ : UriComponents) ∧
    handleFetchCallback
        (mapSet (mapSet [] "abc" (⟨"vscode", "", "/one", "", ""⟩ : UriComponents)) "abc"
          (⟨"vscode", "", "/two", "", ""⟩ : UriComponents))
        [("vscode-requestId", QueryVal.str "abc")] =
      (mapDelete (mapSet (mapSet [] "abc" (⟨"vscode", "", "/one", "", ""⟩ : UriComponents)) "abc"
          (⟨"vscode", "", "/two", "", ""⟩ : UriComponents)) "abc",
       FetchOutcome.ok (some (⟨"vscode", "", "/two", "", ""⟩ : UriComponents))) :=
  callback_register_overwrites "vscode" []
    [("vscode-requestId", QueryVal.str "abc"), ("vscode-path", QueryVal.str "/one")]
    [("vscode-requestId", QueryVal.str "abc"), ("vscode-path", QueryVal.str "/two")]
    "abc" ⟨"vscode", "", "/one", "", ""⟩ ⟨"vscode", "", "/two", "", ""⟩
    (by decide) (by decide) (by decide)

theorem string_append_assoc (a b c : String) : a ++ b ++ c = a ++ (b ++ c) := by
  apply String.ext
  simp [String.data_append]

/-- Ampersand-joining of a non-empty list of fragments, head first. -/
def joinAmp : List String → String
  | [] => ""
  | x :: rest => rest.foldl (fun acc y => acc ++ "&" ++ y) x

theorem mergeExtras_go (l : List (String × String)) :
    ∀ (s : String) (n : Nat),
      (l.foldl mergeStep (some s, n + 1)).1 =
        some (l.foldl (fun acc kv => acc ++ "&" ++ kv.1 ++ "=" ++ kv.2) s) := by
  induction l with
  | nil => intro s n; rfl
  | cons kv rest ih =>
    intro s n
    simp only [List.foldl_cons]
    have hstep : mergeStep (some s, n + 1) kv =
        (some (s ++ "&" ++ kv.1 ++ "=" ++ kv.2), n + 2) := by
      simp [mergeStep]
    rw [hstep]
    exact ih (s ++ "&" ++ kv.1 ++ "=" ++ kv.2) (n + 1)

theorem foldl_amp_pull (l : List String) :
    ∀ (a x : String),
      l.foldl (fun acc y => acc ++ "&" ++ y) (a ++ x) =
        a ++ l.foldl (fun acc y => acc ++ "&" ++ y) x := by
  induction l with
  | nil => intro a x; rfl
  | cons y rest ih =>
    intro a x
    simp only [List.foldl_cons]
    rw [string_append_assoc (a ++ x) "&" y, string_append_assoc a x ("&" ++ y),
      ← string_append_assoc x "&" y]
    exact ih a (x ++ "&" ++ y)

theorem foldl_pairs_eq_foldl_map (l : List (String × String)) :
    ∀ (b : String),
      l.foldl (fun acc kv => acc ++ "&" ++ kv.1 ++ "=" ++ kv.2) b =
        (l.map (fun kv => kv.1 ++ "=" ++ kv.2)).foldl (fun acc y => acc ++ "&" ++ y) b := by
  induction l with
  | nil => intro b; rfl
  | cons kv rest ih =>
    intro b
    simp only [List.foldl_cons, List.map_cons]
    rw [← ih]
    congr 1
    simp [string_append_assoc]

/-- C3 (amended): with a pre-existing truthy `vscode-query` value and a
non-empty list of extra (non-well-known) parameters, the merged query is the
`vscode-query` value verbatim, followed directly (with NO `&` separator) by
the first extra `key=value` pair, with `&` separating the remaining extra
pairs in encounter order. -/
theorem merge_preserves_query_without_first_separator
    (vq : String) (extras : List (String × String))
    (_hvq : vq ≠ "") (hex : extras ≠ []) :
    mergeExtras (some vq) extras =
      some (vq ++ joinAmp (extras.map (fun kv => kv.1 ++ "=" ++ kv.2))) := by
  match extras, hex with
  | e :: rest, _ =>
    simp only [mergeExtras, List.foldl_cons]
    have hstep : mergeStep (some vq, 0) e = (some (vq ++ e.1 ++ "=" ++ e.2), 1) := by
      simp [mergeStep, String.append_empty]
    rw [hstep, mergeExtras_go rest (vq ++ e.1 ++ "=" ++ e.2) 0]
    simp only [joinAmp, List.map_cons]
    rw [foldl_pairs_eq_foldl_map]
    have h1 : vq ++ e.1 ++ "=" ++ e.2 = vq ++ (e.1 ++ "=" ++ e.2) := by
      simp [string_append_assoc]
    rw [h1, foldl_amp_pull (rest.map (fun kv => kv.1 ++ "=" ++ kv.2)) vq (e.1 ++ "=" ++ e.2)]

/-- Witness for C3's amended statement: vscode-query "x" with extras
foo=1, bar=2 merges to "xfoo=1&bar=2". -/
theorem merge_preserves_query_without_first_separator_witness :
    mergeExtras (some "x") [("foo", "1"), ("bar", "2")] =
      some ("x" ++ joinAmp ([("foo", "1"), ("bar", "2")].map (fun kv => kv.1 ++ "=" ++ kv.2))) :=
  merge_preserves_query_without_first_separator "x" [("foo", "1"), ("bar", "2")]
    (by decide) (by decide)

/-- C3 counterexample: for a callback registration with vscode-query "x" and
one extra parameter foo=1, the stored query string is "xfoo=1" — the claimed
`&` separator between the preserved vscode-query prefix and the first merged
extra parameter is NOT inserted (the loop's index is 0 on that iteration). -/
theorem merge_counterexample_no_first_separator :
    callbackProcess "vscode"
      [("vscode-requestId", QueryVal.str "abc"), ("vscode-query", QueryVal.str "x"),
       ("foo", QueryVal.str "1")] =
      some (some ("abc", ⟨"vscode", "", "", "xfoo=1", ""⟩)) ∧
    ("xfoo=1" : String) ≠ "x&foo=1" := by decide

/-- C10: when the vscode-scheme query parameter is absent or empty, the
stored URI's scheme is the product's configured urlProtocol (assumed
non-empty), not an empty scheme. -/
theorem callback_scheme_defaults_to_urlProtocol
    (urlProtocol : String) (q : Query) (r : String) (u : UriComponents)
    (hup : urlProtocol ≠ "")
    (hs : getFirstQueryValue q "vscode-scheme" = none ∨
          getFirstQueryValue q "vscode-scheme" = some "")
    (hreg : callbackProcess urlProtocol q = some (some (r, u))) :
    u.scheme = urlProtocol ∧ u.scheme ≠ "" := by
  have hdec : decodeIfTruthy (getFirstQueryValue q "vscode-scheme") = some none ∨
      decodeIfTruthy (getFirstQueryValue q "vscode-scheme") = some (some "") := by
    rcases hs with hs | hs <;> simp [decodeIfTruthy, hs]
  unfold callbackProcess at hreg
  rcases hdec with hd | hd <;>
    rw [hd] at hreg <;>
    · split at hreg
      · rename_i requestId sch auth pa qy fr heq1 heq2 heq3 heq4 heq5 heq6
        cases heq2
        split at hreg
        · cases hreg
        · split at hreg
          · cases hreg
          · injection hreg with hreg
            injection hreg with hreg
            cases hreg
            refine ⟨?_, ?_⟩ <;> simp [composeCallbackUri, jsOr, hup]
      · cases hreg

/-- Witness for C10: a registration with no vscode-scheme parameter stores
scheme "vscode" (the product's urlProtocol). -/
theorem callback_scheme_defaults_to_urlProtocol_witness :
    (⟨"vscode", "", "", "", ""⟩ : UriComponents).scheme = "vscode" ∧
    (⟨"vscode", "", "", "", ""⟩ : UriComponents).scheme ≠ "" :=
  callback_scheme_defaults_to_urlProtocol "vscode"
    [("vscode-requestId", QueryVal.str "abc")] "abc" ⟨"vscode", "", "", "", ""⟩
    (by decide) (Or.inl (by decide)) (by decide)

/- ----------------------------------------------------------------------------
Root handler (`_handleRoot`), cookie serialization, and `url.format`.
---------------------------------------------------------------------------- -/

/-- Models `cookie.serialize(name, value, { sameSite: "strict", maxAge: 60*60*24*7 })`
from the npm `cookie` library: the value is passed through `encodeURIComponent`
(the library default) and the options render as `Max-Age=604800` and
`SameSite=Strict`, in that order. -/
def cookieSerialize (name value : String) : String :=
  name ++ "=" ++ encodeURIComponent value ++ "; Max-Age=604800; SameSite=Strict"

/-- Stringification of one parsed-query entry by node's
`querystring.stringify`: a plain value yields one escaped `key=value` pair,
an array value yields one pair per element (an empty array contributes
nothing). The escape set equals `encodeURIComponent`'s. -/
def qsStringifyPair (k : String) (v : QueryVal) : List String :=
  match v with
  | .str s => [encodeURIComponent k ++ "=" ++ encodeURIComponent s]
  | .arr l => l.map (fun s => encodeURIComponent k ++ "=" ++ encodeURIComponent s)

/-- Models node's `querystring.stringify` on a parsed query object
(parsed query objects never hold empty-array values, on which node would
leave a dangling separator). -/
def qsStringify (q : Query) : String :=
  String.intercalate "&" ((q.map (fun kv => qsStringifyPair kv.1 kv.2)).flatten)

/-- Models node's legacy `url.format({ pathname, query })`: the pathname
followed, when the stringified query is non-empty, by `?` and the query. -/
def urlFormat (pathname : String) (q : Query) : String :=
  let search := qsStringify q
  pathname ++ (if search = "" then "" else "?" ++ search)

/-- Where the derived remote authority came from: either the raw RFC-7239
`Forwarded` header (parsed by the external `forwarded-parse` library, kept
abstract here) or the `(proto, host)` pair derived from the fallback
headers. -/
inductive AuthorityOrigin where
  | forwarded (raw : String)
  | derived (proto host : String)
deriving DecidableEq

/-- Whitespace characters for the purpose of JavaScript's `trim`
(ASCII subset; header values are ASCII). -/
def isWhitespaceChar (c : Char) : Bool :=
  c = ' ' ∨ c = '\t' ∨ c = '\n' ∨ c = '\r' ∨ c = '\x0b' ∨ c = '\x0c'

/-- Modelled from the spec: `isFalsyOrWhitespace` from vs/base/common/strings
(not under src/): true for undefined, empty, or whitespace-only strings
(`!str || str.trim().length === 0`). -/
def isFalsyOrWhitespace (s : Option String) : Bool :=
  match s with
  | none => true
  | some s => s.data.all isWhitespaceChar

/-- The `parseHeaders` helper inside `getRemoteAuthority` (lines 179-187):
returns the first of the named headers whose value is present and not
falsy-or-whitespace. The lookup `req.headers[headerName]` is by exact key;
node's HTTP parser lower-cases all incoming header names, so the keys of the
`headers` association list are the lower-cased names as received. -/
def parseHeadersFirst (headers : List (String × String)) : List String → Option String
  | [] => none
  | n :: rest =>
    let h := assocGet headers n
    if isFalsyOrWhitespace h then parseHeadersFirst headers rest else h

/-- WebClientServer.getRemoteAuthority (lines 172-193): prefers a truthy
`forwarded` header (RFC 7239, parsed by the external library); otherwise
derives `proto` from header name `X-Forwarded-Proto` (defaulting to "http")
and `host` from `X-Forwarded-Host` then `host` (defaulting to "localhost"),
looking each name up verbatim in the lower-case-keyed header map. -/
def getRemoteAuthority (headers : List (String × String)) : AuthorityOrigin :=
  match assocGet headers "forwarded" with
  | some fwd =>
    if fwd = "" then
      .derived (jsOr (parseHeadersFirst headers ["X-Forwarded-Proto"]) "http")
        (jsOr (parseHeadersFirst headers ["X-Forwarded-Host", "host"]) "localhost")
    else .forwarded fwd
  | none =>
    .derived (jsOr (parseHeadersFirst headers ["X-Forwarded-Proto"]) "http")
      (jsOr (parseHeadersFirst headers ["X-Forwarded-Host", "host"]) "localhost")

/-- Splitting a character list at every occurrence of a separator
(the semantics of `String.splitOn` with a single-character separator). -/
def splitOnChar (sep : Char) : List Char → List (List Char)
  | [] => [[]]
  | c :: rest =>
    let r := splitOnChar sep rest
    if c = sep then [] :: r
    else
      match r with
      | [] => [[c]]
      | h :: t => (c :: h) :: t

/-- Hostname and port of a WHATWG URL host component, for bracketless hosts:
at most one colon splits hostname from port; the hostname is lower-cased.
Default-port elision is not modelled (not exercised by the inputs below). -/
def urlHostnamePort (host : String) : String × String :=
  match splitOnChar ':' host.data with
  | [h, p] => (String.mk (h.map Char.toLower), String.mk p)
  | _ => (String.mk (host.data.map Char.toLower), "")

/-- The `remoteAuthority` field of the embedded workbench configuration
(line 327): hostname and explicit port, the port defaulting to 443 when the
protocol is https and 80 otherwise. -/
def remoteAuthorityConfigField (proto host : String) : String :=
  let hp := urlHostnamePort host
  let protocol := String.mk (proto.data.map Char.toLower) ++ ":"
  hp.1 ++ ":" ++ (if hp.2 = "" then (if protocol = "https:" then "443" else "80") else hp.2)

/-- Response of `_handleRoot`: 400 without a host header; 302 with a
`Set-Cookie` and a `Location` header when a string-valued `tkn` query
parameter is present; otherwise the rendered workbench page, which embeds
URLs derived from the remote authority. -/
inductive RootOutcome where
  | badRequest
  | redirect (setCookie : String) (location : String)
  | render (authority : AuthorityOrigin)
deriving DecidableEq

/-- The routing part of `WebClientServer._handleRoot` (lines 246-271): a
missing (or falsy) host header is a 400; a string-valued `tkn` query
parameter yields a 302 whose cookie is `cookie.serialize("vscode-tkn", tkn,
...)` and whose location is `url.format({ pathname: "/", query })` over a
copy of the query without the `tkn` key. The request's own pathname is not
used by this branch. -/
def handleRoot (headers : List (String × String)) (_pathname : String) (q : Query) :
    RootOutcome :=
  if isFalsyStr (assocGet headers "host") then .badRequest
  else
    match assocGet q "tkn" with
    | some (QueryVal.str t) =>
      .redirect (cookieSerialize "vscode-tkn" t)
        (urlFormat "/" (q.filter (fun kv => kv.1 != "tkn")))
    | _ => .render (getRemoteAuthority headers)

/-- C2 counterexample: for the root-path request `/prefix/?tkn=SECRET&foo=1`
the redirect location is `/?foo=1` — the fixed pathname `/` — and not the
current request path `/prefix/` with `tkn` removed, as the claim states. -/
theorem root_tkn_redirect_counterexample :
    handleRoot [("host", "example.com")] "/prefix/"
      [("tkn", QueryVal.str "SECRET"), ("foo", QueryVal.str "1")] =
      RootOutcome.redirect "vscode-tkn=SECRET; Max-Age=604800; SameSite=Strict" "/?foo=1" ∧
    ("/?foo=1" : String) ≠
      urlFormat "/prefix/" [("foo", QueryVal.str "1")] := by decide

/-- C2 (amended): for every root-path request with a string-valued `tkn`
query parameter, the response is a 302 whose `Set-Cookie` sets `vscode-tkn`
to the token with `Max-Age=604800` (7 days) and `SameSite=Strict`, and whose
`Location` is the fixed path `/` (not the current request path) with `tkn`
removed from the query and every other query parameter retained. -/
theorem root_tkn_redirect
    (headers : List (String × String)) (pathname : String) (q : Query) (t : String)
    (hhost : isFalsyStr (assocGet headers "host") = false)
    (htkn : assocGet q "tkn" = some (QueryVal.str t)) :
    handleRoot headers pathname q =
      RootOutcome.redirect (cookieSerialize "vscode-tkn" t)
        (urlFormat "/" (q.filter (fun kv => kv.1 != "tkn"))) ∧
    cookieSerialize "vscode-tkn" t =
      "vscode-tkn=" ++ encodeURIComponent t ++ "; Max-Age=604800; SameSite=Strict" ∧
    (∀ kv ∈ q.filter (fun kv => kv.1 != "tkn"), kv ∈ q ∧ kv.1 ≠ "tkn") ∧
    (∀ kv ∈ q, kv.1 ≠ "tkn" → kv ∈ q.filter (fun kv => kv.1 != "tkn")) := by
  refine ⟨?_, rfl, ?_, ?_⟩
  · simp [handleRoot, hhost, htkn]
  · intro kv hkv
    have h := List.mem_filter.mp hkv
    refine ⟨h.1, ?_⟩
    have := h.2
    simpa using this
  · intro kv hkv hne
    exact List.mem_filter.mpr ⟨hkv, by simpa using hne⟩

/-- Witness for C2's amended statement at the spec's example query
`?tkn=SECRET&foo=1`. -/
theorem root_tkn_redirect_witness :
    handleRoot [("host", "example.com")] "/"
      [("tkn", QueryVal.str "SECRET"), ("foo", QueryVal.str "1")] =
      RootOutcome.redirect (cookieSerialize "vscode-tkn" "SECRET")
        (urlFormat "/"
          ([("tkn", QueryVal.str "SECRET"), ("foo", QueryVal.str "1")].filter
            (fun kv => kv.1 != "tkn"))) ∧
    cookieSerialize "vscode-tkn" "SECRET" =
      "vscode-tkn=" ++ encodeURIComponent "SECRET" ++ "; Max-Age=604800; SameSite=Strict" ∧
    (∀ kv ∈ ([("tkn", QueryVal.str "SECRET"), ("foo", QueryVal.str "1")] : Query).filter
        (fun kv => kv.1 != "tkn"),
      kv ∈ ([("tkn", QueryVal.str "SECRET"), ("foo", QueryVal.str "1")] : Query) ∧
        kv.1 ≠ "tkn") ∧
    (∀ kv ∈ ([("tkn", QueryVal.str "SECRET"), ("foo", QueryVal.str "1")] : Query),
      kv.1 ≠ "tkn" →
        kv ∈ ([("tkn", QueryVal.str "SECRET"), ("foo", QueryVal.str "1")] : Query).filter
          (fun kv => kv.1 != "tkn")) :=
  root_tkn_redirect [("host", "example.com")] "/"
    [("tkn", QueryVal.str "SECRET"), ("foo", QueryVal.str "1")] "SECRET"
    (by decide) (by decide)

/-- C8: evaluation of the code at the claim's own example input. Node's HTTP
parser lower-cases incoming header names, so the header map of a request
sent with `Host: example.com` and `X-Forwarded-Proto: https` has keys
`host` and `x-forwarded-proto`; the code's lookup of the verbatim name
`X-Forwarded-Proto` therefore never finds the header, the derived authority
is `http://example.com`, and the config's explicit-port authority field is
`example.com:80` — not https / 443 as the claim states. -/
theorem forwarded_proto_header_never_found :
    getRemoteAuthority [("host", "example.com"), ("x-forwarded-proto", "https")] =
      AuthorityOrigin.derived "http" "example.com" ∧
    remoteAuthorityConfigField "http" "example.com" = "example.com:80" ∧
    getRemoteAuthority [("host", "example.com"), ("x-forwarded-proto", "https")] ≠
      AuthorityOrigin.derived "https" "example.com" ∧
    remoteAuthorityConfigField "http" "example.com" ≠ "example.com:443" := by decide

/- ----------------------------------------------------------------------------
Path parsing (node's posix `path.parse`), the dispatcher (`handle`), the
static asset handler, and `serveFile`.
---------------------------------------------------------------------------- -/

/-- Index of the last occurrence of a character in a character list. -/
def lastIdxOf (c : Char) (l : List Char) : Option Nat :=
  ((l.enum.filter (fun pr => pr.2 == c)).map Prod.fst).getLast?

/-- Modelled from the spec: extension extraction of node's posix
`path.parse` / `path.extname` (vs/base/common/path is not under src/):
the substring of the basename from its last dot, except that a dot in first
position (hidden file) or the basename ".." yields no extension. -/
def extOfBase (base : String) : String :=
  match lastIdxOf '.' base.data with
  | none => ""
  | some i => if i = 0 ∨ base = ".." then "" else String.mk (base.data.drop i)

/-- The fields of node's posix `path.parse` used by the dispatcher. -/
structure ParsedPath where
  dir : String
  base : String
  ext : String
deriving DecidableEq

/-- Modelled from the spec: node's posix `path.parse` (vs/base/common/path
is not under src/): `base` is the part after the last slash, `dir` the part
before it (the root `/` when empty on an absolute path), `ext` per
`extOfBase`. -/
def pathParse (p : String) : ParsedPath :=
  let cs := p.data
  match lastIdxOf '/' cs with
  | none => { dir := "", base := p, ext := extOfBase p }
  | some i =>
    let base := String.mk (cs.drop (i + 1))
    let pre := cs.take i
    { dir := if pre = [] then "/" else String.mk pre
      base := base
      ext := extOfBase base }

/-- Whether `needle` is a prefix of `hay` (character-exact). -/
def isPrefixList : List Char → List Char → Bool
  | [], _ => true
  | _ :: _, [] => false
  | a :: as, b :: bs => a == b && isPrefixList as bs

/-- Index of the first occurrence of `needle` in `hay`
(JavaScript `String.prototype.indexOf`). -/
def findSub (needle : List Char) : List Char → Option Nat
  | [] => if isPrefixList needle [] then some 0 else none
  | c :: rest =>
    if isPrefixList needle (c :: rest) then some 0
    else (findSub needle rest).map (· + 1)

/-- JavaScript `String.prototype.includes`. -/
def strIncludes (s sub : String) : Bool :=
  (findSub sub.data s.data).isSome

/-- The pathname rewrite before dispatching to the static handler
(line 113): `pathname.substring(pathname.indexOf('/static/'))`. -/
def rewriteStatic (pathname : String) : String :=
  match findSub "/static/".data pathname.data with
  | some i => String.mk (pathname.data.drop i)
  | none => pathname

/-- The handler selected by `WebClientServer.handle` for a pathname.
`notFound` models the no-match case: the dispatcher emits a request-level
"not found" error event (`req.emit('error', ...)`) and returns without
writing any response. -/
inductive Route where
  | manifest
  | icon (name : String)
  | serviceWorker
  | staticFile (rewrittenPath : String)
  | callback
  | fetchCallback
  | root
  | notFound
deriving DecidableEq

/-- The routing logic of `WebClientServer.handle` (lines 91-136): the
if-chain over the parsed path, in source order. -/
def route (serviceWorkerFileName : String) (pathname : String) : Route :=
  let pp := pathParse pathname
  if pp.base == "manifest.json" || pp.base == "webmanifest.json" then .manifest
  else if pp.base == "favicon.ico" || pp.base == "code-192.png" || pp.base == "code-512.png" then
    .icon pp.base
  else if pp.base == serviceWorkerFileName then .serviceWorker
  else if strIncludes pp.dir "/static/" && pp.ext != "" then .staticFile (rewriteStatic pathname)
  else if pp.base == "callback" then .callback
  else if pp.base == "fetch-callback" then .fetchCallback
  else if pathname.endsWith "/" then .root
  else .notFound

/-- The spec's view of the dispatcher: an explicit ordered list of
(predicate, handler) pairs, evaluated top to bottom. -/
def routingTable (swName : String) : List ((String → Bool) × (String → Route)) :=
  [ (fun p => (pathParse p).base == "manifest.json" || (pathParse p).base == "webmanifest.json",
     fun _ => .manifest),
    (fun p => (pathParse p).base == "favicon.ico" || (pathParse p).base == "code-192.png" ||
        (pathParse p).base == "code-512.png",
     fun p => .icon (pathParse p).base),
    (fun p => (pathParse p).base == swName, fun _ => .serviceWorker),
    (fun p => strIncludes (pathParse p).dir "/static/" && (pathParse p).ext != "",
     fun p => .staticFile (rewriteStatic p)),
    (fun p => (pathParse p).base == "callback", fun _ => .callback),
    (fun p => (pathParse p).base == "fetch-callback", fun _ => .fetchCallback),
    (fun p => p.endsWith "/", fun _ => .root) ]

/-- First-match evaluation of the routing table; no match is the
"not found" error event. -/
def routeSpec (swName pathname : String) : Route :=
  match (routingTable swName).find? (fun pr => pr.1 pathname) with
  | some pr => pr.2 pathname
  | none => .notFound

/-- C5: the dispatcher routes every request to exactly one handler: it
equals the first-match evaluation of the ordered predicate table (manifest,
fixed icons, service-worker file, /static/ segment with extension, callback,
fetch-callback, trailing-slash root), and when no predicate matches the
result is the "not found" error event, which writes no response. -/
theorem route_is_ordered_first_match (sw p : String) : route sw p = routeSpec sw p := by
  simp only [route, routeSpec, routingTable, List.find?]
  cases h1 : ((pathParse p).base == "manifest.json" || (pathParse p).base == "webmanifest.json") with
  | true => simp [h1]
  | false =>
    cases h2 : ((pathParse p).base == "favicon.ico" || (pathParse p).base == "code-192.png" ||
        (pathParse p).base == "code-512.png") with
    | true => simp [h1, h2]
    | false =>
      cases h3 : ((pathParse p).base == sw) with
      | true => simp [h1, h2, h3]
      | false =>
        cases h4 : (strIncludes (pathParse p).dir "/static/" && (pathParse p).ext != "") with
        | true => simp [h1, h2, h3, h4]
        | false =>
          cases h5 : ((pathParse p).base == "callback") with
          | true => simp [h1, h2, h3, h4, h5]
          | false =>
            cases h6 : ((pathParse p).base == "fetch-callback") with
            | true => simp [h1, h2, h3, h4, h5, h6]
            | false =>
              cases h7 : (p.endsWith "/") with
              | true => simp [h1, h2, h3, h4, h5, h6, h7]
              | false => simp [h1, h2, h3, h4, h5, h6, h7]

/-- One step of posix path-segment normalization: empty and `.` segments are
dropped; `..` pops the previous segment, or is kept (when above root is
allowed) or dropped (on an absolute path); the accumulator is reversed. -/
def processSegs (allowAboveRoot : Bool) (segs : List String) : List String :=
  (segs.foldl (fun acc seg =>
    if seg = "" ∨ seg = "." then acc
    else if seg = ".." then
      match acc with
      | [] => if allowAboveRoot then [".."] else []
      | last :: rest => if last = ".." then ".." :: acc else rest
    else seg :: acc) []).reverse

/-- Modelled from the spec: node's posix `path.normalize`
(vs/base/common/path is not under src/): resolves `.` and `..` segments,
collapses repeated slashes, preserves a trailing slash, and keeps leading
`..` segments only on relative paths. -/
def pathNormalize (p : String) : String :=
  if p = "" then "."
  else
    let cs := p.data
    let isAbs : Bool := match cs with
      | '/' :: _ => true
      | _ => false
    let trailing : Bool := cs.getLast? == some '/'
    let segs := processSegs (!isAbs) ((splitOnChar '/' cs).map String.mk)
    let body := String.intercalate "/" segs
    if body = "" then
      if isAbs then "/" else if trailing then "./" else "."
    else
      let body2 := if trailing then body ++ "/" else body
      if isAbs then "/" ++ body2 else body2

/-- Modelled from the spec: node's posix `path.join` of two parts
(vs/base/common/path is not under src/): the slash-joined non-empty parts,
normalized. -/
def pathJoin (a b : String) : String :=
  if a = "" ∧ b = "" then "."
  else if a = "" then pathNormalize b
  else if b = "" then pathNormalize a
  else pathNormalize (a ++ "/" ++ b)

/-- ASCII lower-casing of a string (case folding of the containment check). -/
def lowerStr (s : String) : String :=
  String.mk (s.data.map Char.toLower)

/-- Modelled from the spec: `isEqualOrParent` from vs/base/common/extpath
(not under src/): the path is contained in the parent candidate when it is
equal to it or a descendant of it (the candidate plus a separator is a
prefix); with `ignoreCase` the comparison folds character case
(case-insensitive filesystems). -/
def isEqualOrParent (base parentCandidate : String) (ignoreCase : Bool) : Bool :=
  let b := if ignoreCase then lowerStr base else base
  let par := if ignoreCase then lowerStr parentCandidate else parentCandidate
  let parSlash := if par.data.getLast? == some '/' then par else par ++ "/"
  b == par || isPrefixList parSlash.data b.data

/-- Outcome of `_handleStatic` up to file serving: 400 Bad request, a
decoding error propagated to `handle`'s catch-all (500), or the resolved
file path handed to `serveFile` (the only outcome that touches the file
system). -/
inductive StaticOutcome where
  | badRequest
  | serve (filePath : String)
  | internalError
deriving DecidableEq

/-- WebClientServer._handleStatic (lines 228-241): decodes the pathname
(which `handle` has rewritten to start at `/static/`), strips the 8
characters of `/static/`, normalizes, joins to the application root, and
rejects with 400 unless the result is equal to or contained in the root;
the containment check is case-sensitive exactly on Linux (`!isLinux`). -/
def handleStatic (isLin : Bool) (appRoot pathname : String) : StaticOutcome :=
  match decodeURIComponent pathname with
  | none => .internalError
  | some normalizedPathname =>
    let relativeFilePath := pathNormalize (String.mk (normalizedPathname.data.drop 8))
    let filePath := pathJoin appRoot relativeFilePath
    if !(isEqualOrParent filePath appRoot (!isLin)) then .badRequest
    else .serve filePath

/-- C6: a /static/ request whose decoded and normalized path, joined to the
application root, is not equal to or a descendant of the root is answered
with 400, and no file path is ever handed to `serveFile` (the file is never
stat'ed or opened); the containment check runs with `ignoreCase = !isLinux`,
i.e. case-sensitive on Linux and case-insensitive otherwise. -/
theorem static_outside_root_is_bad_request
    (isLin : Bool) (appRoot pathname np : String)
    (hdec : decodeURIComponent pathname = some np)
    (hout : isEqualOrParent (pathJoin appRoot (pathNormalize (String.mk (np.data.drop 8))))
        appRoot (!isLin) = false) :
    handleStatic isLin appRoot pathname = StaticOutcome.badRequest := by
  unfold handleStatic
  rw [hdec]
  simp [hout]

/-- Witness for C6 at the spec's example: `/static/../../etc/passwd` under
application root `/app` resolves to `/etc/passwd`, outside the root. -/
theorem static_outside_root_is_bad_request_witness :
    handleStatic true "/app" "/static/../../etc/passwd" = StaticOutcome.badRequest :=
  static_outside_root_is_bad_request true "/app" "/static/../../etc/passwd"
    "/static/../../etc/passwd" (by decide) (by decide)

/- ----------------------------------------------------------------------------
serveFile: conditional GET, ETag and content type.
---------------------------------------------------------------------------- -/

/-- The file metadata consulted by `serveFile` (`fs.stat`): inode, size in
bytes, and modification time in milliseconds (`stat.mtime.getTime()`). -/
structure FileStat where
  ino : Nat
  size : Nat
  mtimeMs : Nat
deriving DecidableEq

/-- The weak validator of `serveFile` (line 49):
`W/"${[stat.ino, stat.size, stat.mtime.getTime()].join('-')}"`. -/
def etagOf (st : FileStat) : String :=
  "W/\"" ++ String.intercalate "-" [toString st.ino, toString st.size, toString st.mtimeMs] ++ "\""

/-- The fixed extension-to-MIME table of webClientServer.ts (lines 33-39). -/
def textMimeType (ext : String) : Option String :=
  if ext = ".html" then some "text/html"
  else if ext = ".js" then some "text/javascript"
  else if ext = ".json" then some "application/json"
  else if ext = ".css" then some "text/css"
  else if ext = ".svg" then some "image/svg+xml"
  else none

/-- Node's `path.extname`, shared with `pathParse`. -/
def extname (p : String) : String :=
  (pathParse p).ext

/-- Response of `serveFile`: 404 when the stat failed (missing file), 304
with no body and no headers set, or 200 with the response headers
(Content-Type and Etag set). -/
inductive ServeFileResult where
  | notFound
  | notModified
  | ok (headers : List (String × String))
deriving DecidableEq

/-- serveFile (lines 44-72): stat result `none` models the ENOENT path
(404). On a stat hit, an `if-none-match` header exactly equal to the weak
validator yields 304 with an empty body and no headers; otherwise
Content-Type is the fixed table's entry for the extension, falling back to
the generic media-type lookup (`getMediaMime`, modelled from the spec as an
abstract lookup since vs/base/common/mime is not under src/), then
text/plain; the Etag header carries the validator. -/
def serveFile (st : Option FileStat) (ifNoneMatch : Option String) (filePath : String)
    (getMediaMime : String → Option String) (responseHeaders : List (String × String)) :
    ServeFileResult :=
  match st with
  | none => .notFound
  | some st =>
    let etag := etagOf st
    if ifNoneMatch = some etag then .notModified
    else .ok (mapSet (mapSet responseHeaders "Content-Type"
        (jsOr (textMimeType (extname filePath)) (jsOr (getMediaMime filePath) "text/plain")))
        "Etag" etag)

/-- C7: for an existing file the validator is exactly
`W/"ino-size-mtimeMs"`; a request whose `if-none-match` equals it is
answered 304 (the `notModified` outcome, which carries no body and no
Content-Type or ETag headers); any other request is answered 200 with
Content-Type from the fixed extension table, falling back to the media-type
lookup and then text/plain, and with the ETag header set to the validator. -/
theorem serveFile_conditional_get (st : FileStat) (ifNoneMatch : Option String)
    (filePath : String) (getMediaMime : String → Option String)
    (responseHeaders : List (String × String)) :
    etagOf st =
      "W/\"" ++ toString st.ino ++ "-" ++ toString st.size ++ "-" ++ toString st.mtimeMs ++ "\"" ∧
    serveFile (some st) ifNoneMatch filePath getMediaMime responseHeaders =
      (if ifNoneMatch = some (etagOf st) then ServeFileResult.notModified
       else ServeFileResult.ok (mapSet (mapSet responseHeaders "Content-Type"
          (jsOr (textMimeType (extname filePath)) (jsOr (getMediaMime filePath) "text/plain")))
          "Etag" (etagOf st))) ∧
    assocGet (mapSet (mapSet responseHeaders "Content-Type"
        (jsOr (textMimeType (extname filePath)) (jsOr (getMediaMime filePath) "text/plain")))
        "Etag" (etagOf st)) "Content-Type" =
      some (jsOr (textMimeType (extname filePath)) (jsOr (getMediaMime filePath) "text/plain")) ∧
    assocGet (mapSet (mapSet responseHeaders "Content-Type"
        (jsOr (textMimeType (extname filePath)) (jsOr (getMediaMime filePath) "text/plain")))
        "Etag" (etagOf st)) "Etag" = some (etagOf st) := by
  refine ⟨rfl, rfl, ?_, assocGet_mapSet_self _ "Etag" _⟩
  rw [assocGet_mapSet_ne _ "Etag" "Content-Type" _ (by decide)]
  exact assocGet_mapSet_self _ "Content-Type" _

/- ----------------------------------------------------------------------------
CSP hash extraction (`_getScriptCspHashes`): SHA-256, base64, and the
non-greedy case-insensitive scan of the regex
`/<script>([\s\S]+?)<\/script>/img`.
---------------------------------------------------------------------------- -/

/-- Reduction to a 32-bit word. -/
def w32 (n : Nat) : Nat := n % 4294967296

/-- 32-bit rotate right. -/
def rotr32 (n x : Nat) : Nat := x / 2 ^ n + x % 2 ^ n * 2 ^ (32 - n)

/-- 32-bit bitwise complement. -/
def bnot32 (x : Nat) : Nat := 4294967295 - x % 4294967296

/-- SHA-256 choice function. -/
def shaCh (x y z : Nat) : Nat := (x &&& y) ^^^ (bnot32 x &&& z)

/-- SHA-256 majority function. -/
def shaMaj (x y z : Nat) : Nat := (x &&& y) ^^^ (x &&& z) ^^^ (y &&& z)

/-- SHA-256 big sigma 0. -/
def bigSigma0 (x : Nat) : Nat := rotr32 2 x ^^^ rotr32 13 x ^^^ rotr32 22 x

/-- SHA-256 big sigma 1. -/
def bigSigma1 (x : Nat) : Nat := rotr32 6 x ^^^ rotr32 11 x ^^^ rotr32 25 x

/-- SHA-256 small sigma 0. -/
def smallSigma0 (x : Nat) : Nat := rotr32 7 x ^^^ rotr32 18 x ^^^ x / 8

/-- SHA-256 small sigma 1. -/
def smallSigma1 (x : Nat) : Nat := rotr32 17 x ^^^ rotr32 19 x ^^^ x / 1024

/-- The 64 SHA-256 round constants (FIPS 180-4, in decimal). -/
def shaK : List Nat :=
  [1116352408, 1899447441, 3049323471, 3921009573, 961987163, 1508970993,
   2453635748, 2870763221, 3624381080, 310598401, 607225278, 1426881987,
   1925078388, 2162078206, 2614888103, 3248222580, 3835390401, 4022224774,
   264347078, 604807628, 770255983, 1249150122, 1555081692, 1996064986,
   2554220882, 2821834349, 2952996808, 3210313671, 3336571891, 3584528711,
   113926993, 338241895, 666307205, 773529912, 1294757372, 1396182291,
   1695183700, 1986661051, 2177026350, 2456956037, 2730485921, 2820302411,
   3259730800, 3345764771, 3516065817, 3600352804, 4094571909, 275423344,
   430227734, 506948616, 659060556, 883997877, 958139571, 1322822218,
   1537002063, 1747873779, 1955562222, 2024104815, 2227730452, 2361852424,
   2428436474, 2756734187, 3204031479, 3329325298]

/-- The SHA-256 initial hash value (FIPS 180-4, in decimal). -/
def shaH0 : List Nat :=
  [1779033703, 3144134277, 1013904242, 2773480762, 1359893119, 2600822924,
   528734635, 1541459225]

/-- Big-endian 8-byte encoding (the 64-bit message length of the padding). -/
def be8 (n : Nat) : List Nat :=
  [n / 2 ^ 56 % 256, n / 2 ^ 48 % 256, n / 2 ^ 40 % 256, n / 2 ^ 32 % 256,
   n / 2 ^ 24 % 256, n / 2 ^ 16 % 256, n / 2 ^ 8 % 256, n % 256]

/-- Big-endian 4-byte encoding of a 32-bit word. -/
def be4 (n : Nat) : List Nat :=
  [n / 16777216 % 256, n / 65536 % 256, n / 256 % 256, n % 256]

/-- SHA-256 padding: a 0x80 byte, zeros to 56 mod 64, and the bit length. -/
def sha256Pad (msg : List Nat) : List Nat :=
  msg ++ 128 :: (List.replicate ((119 - msg.length % 64) % 64) 0 ++ be8 (8 * msg.length))

/-- Big-endian packing of bytes into 32-bit words. -/
def toWordsBE : List Nat → List Nat
  | b0 :: b1 :: b2 :: b3 :: rest => (b0 * 16777216 + b1 * 65536 + b2 * 256 + b3) :: toWordsBE rest
  | _ => []

/-- 64-byte blocks of a list, with fuel (one unit per non-empty block). -/
def chunks64Aux : Nat → List Nat → List (List Nat)
  | _, [] => []
  | 0, _ :: _ => []
  | fuel + 1, b :: rest => ((b :: rest).take 64) :: chunks64Aux fuel (rest.drop 63)

/-- 64-byte blocks of the padded message. -/
def chunks64 (l : List Nat) : List (List Nat) :=
  chunks64Aux l.length l

/-- Extension of the 16-word message schedule by one word per step. -/
def buildSchedule : Nat → Array Nat → Array Nat
  | 0, w => w
  | n + 1, w =>
    let t := w.size
    let v := w32 (smallSigma1 (w.getD (t - 2) 0) + w.getD (t - 7) 0 +
      smallSigma0 (w.getD (t - 15) 0) + w.getD (t - 16) 0)
    buildSchedule n (w.push v)

/-- The eight 32-bit working variables of the compression function. -/
abbrev Sha8 := Nat × Nat × Nat × Nat × Nat × Nat × Nat × Nat

/-- One SHA-256 compression round. -/
def compressRound (kw : Nat × Nat) (s : Sha8) : Sha8 :=
  match s with
  | (a, b, c, d, e, f, g, h) =>
    let t1 := w32 (h + bigSigma1 e + shaCh e f g + kw.1 + kw.2)
    let t2 := w32 (bigSigma0 a + shaMaj a b c)
    (w32 (t1 + t2), a, b, c, w32 (d + t1), e, f, g)

/-- SHA-256 compression of one 64-byte block into the running hash. -/
def compressBlock (hs : List Nat) (block : List Nat) : List Nat :=
  let ws := buildSchedule 48 (Array.mk (toWordsBE block))
  let kws := List.zip shaK ws.toList
  let s0 : Sha8 := (hs.getD 0 0, hs.getD 1 0, hs.getD 2 0, hs.getD 3 0,
    hs.getD 4 0, hs.getD 5 0, hs.getD 6 0, hs.getD 7 0)
  match kws.foldl (fun s kw => compressRound kw s) s0 with
  | (a, b, c, d, e, f, g, h) =>
    [w32 (hs.getD 0 0 + a), w32 (hs.getD 1 0 + b), w32 (hs.getD 2 0 + c), w32 (hs.getD 3 0 + d),
     w32 (hs.getD 4 0 + e), w32 (hs.getD 5 0 + f), w32 (hs.getD 6 0 + g), w32 (hs.getD 7 0 + h)]

/-- SHA-256 of a byte sequence (FIPS 180-4), as a 32-byte digest. -/
def sha256 (msg : List Nat) : List Nat :=
  (((chunks64 (sha256Pad msg)).foldl compressBlock shaH0).map be4).flatten

/-- The standard base64 alphabet. -/
def base64Chars : List Char :=
  "ABCDEFGHIJKLMNOPQRSTUVWXYZabcdefghijklmnopqrstuvwxyz0123456789+/".data

/-- Character of a 6-bit value in the base64 alphabet. -/
def b64c (n : Nat) : Char := base64Chars.getD n 'A'

/-- Standard base64 encoding with padding (node's
`Buffer.prototype.toString("base64")`). -/
def base64Encode : List Nat → String
  | [] => ""
  | [a] => String.mk [b64c (a / 4), b64c (a % 4 * 16), '=', '=']
  | [a, b] => String.mk [b64c (a / 4), b64c (a % 4 * 16 + b / 16), b64c (b % 16 * 4), '=']
  | a :: b :: c :: rest =>
    String.mk [b64c (a / 4), b64c (a % 4 * 16 + b / 16), b64c (b % 16 * 4 + c / 64), b64c (c % 64)]
      ++ base64Encode rest

/-- The line-ending normalization `script.replace(/\r\n/g, "\n")`
(line 374): every CRLF pair becomes a single LF, left to right. -/
def crlfToLf : List Char → List Char
  | [] => []
  | '\r' :: '\n' :: rest => '\n' :: crlfToLf rest
  | c :: rest => c :: crlfToLf rest

/-- The CSP source token pushed for one matched script block (line 379):
an apostrophe, `sha256-`, the base64 SHA-256 digest of the UTF-8 bytes of
the CRLF-normalized content, and a closing apostrophe. -/
def cspTokenOf (content : List Char) : String :=
  "\x27sha256-" ++ base64Encode (sha256 (((crlfToLf content).map utf8Bytes).flatten)) ++ "\x27"

/-- ASCII-case-insensitive character comparison (the regex `i` flag on the
ASCII literals of the pattern). -/
def charEqCI (a b : Char) : Bool := a.toLower == b.toLower

/-- Case-insensitive prefix test. -/
def isPrefixCI : List Char → List Char → Bool
  | [], _ => true
  | _ :: _, [] => false
  | a :: as, b :: bs => charEqCI a b && isPrefixCI as bs

/-- Index of the first case-insensitive occurrence of `needle` in `hay`. -/
def findCI (needle : List Char) : List Char → Option Nat
  | [] => if isPrefixCI needle [] then some 0 else none
  | c :: rest =>
    if isPrefixCI needle (c :: rest) then some 0
    else (findCI needle rest).map (· + 1)

/-- The opening literal of the CSP scan regex (8 characters). -/
def openTag : List Char := "<script>".data

/-- The closing literal of the CSP scan regex (9 characters). -/
def closeTag : List Char := "</script>".data

/-- The regex-exec loop of `_getScriptCspHashes` (lines 365-382), reduced
to the matched captures: find the first opening tag, then the earliest
closing tag leaving at least one content character (the non-greedy
`[\s\S]+?`), capture the content, and resume after the closing tag. The
fuel argument strictly exceeds the remaining length (the loop always
advances). -/
def scanScriptsAux (fuel : Nat) (s : List Char) : List (List Char) :=
  match fuel with
  | 0 => []
  | fuel + 1 =>
    match findCI openTag s with
    | none => []
    | some o =>
      let afterOpen := s.drop (o + 8)
      match findCI closeTag (afterOpen.drop 1) with
      | none => []
      | some c =>
        (afterOpen.take (c + 1)) :: scanScriptsAux fuel (afterOpen.drop (c + 1 + 9))

/-- The ordered list of script-block contents matched in a document. -/
def scanScripts (html : String) : List (List Char) :=
  scanScriptsAux (html.data.length + 1) html.data

/-- WebClientServer._getScriptCspHashes: the regex-exec loop, pushing one
CSP token per match. -/
def getScriptCspHashesAux (fuel : Nat) (s : List Char) : List String :=
  match fuel with
  | 0 => []
  | fuel + 1 =>
    match findCI openTag s with
    | none => []
    | some o =>
      let afterOpen := s.drop (o + 8)
      match findCI closeTag (afterOpen.drop 1) with
      | none => []
      | some c =>
        cspTokenOf (afterOpen.take (c + 1)) :: getScriptCspHashesAux fuel (afterOpen.drop (c + 1 + 9))

/-- WebClientServer._getScriptCspHashes on a document. -/
def getScriptCspHashes (html : String) : List String :=
  getScriptCspHashesAux (html.data.length + 1) html.data

/-- An opening tag `<script>` occurs (case-insensitively) at index `i`. -/
def openAtPos (s : List Char) (i : Nat) : Prop := isPrefixCI openTag (s.drop i) = true

/-- A closing tag `</script>` occurs (case-insensitively) at index `i`. -/
def closeAtPos (s : List Char) (i : Nat) : Prop := isPrefixCI closeTag (s.drop i) = true

/-- Declarative specification of the non-greedy, non-overlapping,
case-insensitive document-order scan: either no full match exists (no
opening tag with a closing tag at least one content character later), or the
head capture starts at the first opening tag `o`, ends at the earliest
closing tag `c ≥ o + 9`, its content is the characters strictly between the
tags, and the tail is scanned from just after the closing tag. -/
inductive RegexScan : List Char → List (List Char) → Prop where
  | nomatch (s : List Char)
      (h : ∀ o c, openAtPos s o → o + 9 ≤ c → ¬ closeAtPos s c) :
      RegexScan s []
  | found (s : List Char) (o c : Nat) (ms : List (List Char))
      (hopen : openAtPos s o)
      (hclose : closeAtPos s c)
      (hlen : o + 9 ≤ c)
      (hfirst : ∀ o', o' < o → ¬ openAtPos s o')
      (hlazy : ∀ c', o + 9 ≤ c' → c' < c → ¬ closeAtPos s c')
      (hrest : RegexScan (s.drop (c + 9)) ms) :
      RegexScan s (((s.drop (o + 8)).take (c - (o + 8))) :: ms)

theorem isPrefixCI_length (needle : List Char) :
    ∀ hay, isPrefixCI needle hay = true → needle.length ≤ hay.length := by
  induction needle with
  | nil => intro hay _; simp
  | cons a as ih =>
    intro hay h
    match hay with
    | [] => simp [isPrefixCI] at h
    | b :: bs =>
      simp only [isPrefixCI, Bool.and_eq_true] at h
      have := ih bs h.2
      simp only [List.length_cons]
      omega

theorem findCI_spec_some (needle : List Char) :
    ∀ (hay : List Char) (j : Nat), findCI needle hay = some j →
      isPrefixCI needle (hay.drop j) = true ∧
      ∀ j', j' < j → isPrefixCI needle (hay.drop j') = false := by
  intro hay
  induction hay with
  | nil =>
    intro j h
    simp only [findCI] at h
    split at h
    · rename_i hp
      cases h
      exact ⟨by simpa using hp, fun j' hj' => by omega⟩
    · cases h
  | cons c rest ih =>
    intro j h
    simp only [findCI] at h
    split at h
    · rename_i hp
      cases h
      exact ⟨by simpa using hp, fun j' hj' => by omega⟩
    · rename_i hp
      match hh : findCI needle rest with
      | none => rw [hh] at h; cases h
      | some j0 =>
        rw [hh] at h
        simp only [Option.map_some'] at h
        cases h
        obtain ⟨h1, h2⟩ := ih j0 hh
        refine ⟨by simpa using h1, ?_⟩
        intro j' hj'
        match j' with
        | 0 => simpa using hp
        | Nat.succ k =>
          have hk : k < j0 := by omega
          simpa using h2 k hk

theorem findCI_spec_none (needle : List Char) :
    ∀ hay, findCI needle hay = none → ∀ j, isPrefixCI needle (hay.drop j) = false := by
  intro hay
  induction hay with
  | nil =>
    intro h j
    simp only [findCI] at h
    split at h
    · cases h
    · rename_i hp
      simpa using hp
  | cons c rest ih =>
    intro h j
    simp only [findCI] at h
    split at h
    · cases h
    · rename_i hp
      have hr : findCI needle rest = none := by
        match hh : findCI needle rest with
        | none => rfl
        | some j0 => rw [hh] at h; simp at h
      match j with
      | 0 => simpa using hp
      | Nat.succ k => simpa using ih hr k

theorem getScriptCspHashesAux_eq_map (fuel : Nat) :
    ∀ s, getScriptCspHashesAux fuel s = (scanScriptsAux fuel s).map cspTokenOf := by
  induction fuel with
  | zero => intro s; rfl
  | succ n ih =>
    intro s
    simp only [getScriptCspHashesAux, scanScriptsAux]
    cases hfo : findCI openTag s with
    | none => simp only [hfo, List.map_nil]
    | some o =>
      simp only [hfo]
      cases hfc : findCI closeTag ((s.drop (o + 8)).drop 1) with
      | none => simp only [hfc, List.map_nil]
      | some c =>
        simp only [hfc, List.map_cons]
        rw [ih]

theorem scanScriptsAux_sound (fuel : Nat) :
    ∀ s : List Char, s.length < fuel → RegexScan s (scanScriptsAux fuel s) := by
  induction fuel with
  | zero => intro s h; omega
  | succ n ih =>
    intro s hs
    cases hfo : findCI openTag s with
    | none =>
      have hnone := findCI_spec_none openTag s hfo
      have hred : scanScriptsAux (n + 1) s = [] := by simp only [scanScriptsAux, hfo]
      rw [hred]
      refine RegexScan.nomatch s (fun o c hopen hle => ?_)
      exact absurd hopen (by simp [openAtPos, hnone o])
    | some o =>
      obtain ⟨hoP, hoMin⟩ := findCI_spec_some openTag s o hfo
      cases hfc : findCI closeTag ((s.drop (o + 8)).drop 1) with
      | none =>
        have hcnone := findCI_spec_none closeTag _ hfc
        have hred : scanScriptsAux (n + 1) s = [] := by simp only [scanScriptsAux, hfo, hfc]
        rw [hred]
        refine RegexScan.nomatch s (fun o0 c0 hopen0 hle0 hclose0 => ?_)
        have hoo : o ≤ o0 := by
          by_contra hlt
          push_neg at hlt
          have hm := hoMin o0 hlt
          simp [openAtPos, hm] at hopen0
        have hj : ((s.drop (o + 8)).drop 1).drop (c0 - (o + 9)) = s.drop c0 := by
          rw [List.drop_drop, List.drop_drop]
          congr 1
          omega
        have hm2 := hcnone (c0 - (o + 9))
        rw [hj] at hm2
        simp [closeAtPos, hm2] at hclose0
      | some c =>
        obtain ⟨hcP, hcMin⟩ := findCI_spec_some closeTag _ c hfc
        have hcloseAbs : closeAtPos s (o + 9 + c) := by
          rw [List.drop_drop, List.drop_drop] at hcP
          have heq : o + 8 + (1 + c) = o + 9 + c := by omega
          rw [heq] at hcP
          exact hcP
        have hfirst : ∀ o', o' < o → ¬ openAtPos s o' := by
          intro o' h' ho'
          have hm := hoMin o' h'
          simp [openAtPos, hm] at ho'
        have hlazy : ∀ c', o + 9 ≤ c' → c' < o + 9 + c → ¬ closeAtPos s c' := by
          intro c' h1 h2 hcl
          have hj : ((s.drop (o + 8)).drop 1).drop (c' - (o + 9)) = s.drop c' := by
            rw [List.drop_drop, List.drop_drop]
            congr 1
            omega
          have hm := hcMin (c' - (o + 9)) (by omega)
          rw [hj] at hm
          simp [closeAtPos, hm] at hcl
        have hct : closeTag.length = 9 := by rfl
        have h9 := isPrefixCI_length closeTag _ hcloseAbs
        rw [hct, List.length_drop] at h9
        have hrec := ih (s.drop (o + 9 + c + 9)) (by rw [List.length_drop]; omega)
        have hred : scanScriptsAux (n + 1) s =
            ((s.drop (o + 8)).take (c + 1)) ::
              scanScriptsAux n ((s.drop (o + 8)).drop (c + 1 + 9)) := by
          simp only [scanScriptsAux, hfo, hfc]
        rw [hred]
        have hargeq : (s.drop (o + 8)).drop (c + 1 + 9) = s.drop (o + 9 + c + 9) := by
          rw [List.drop_drop]
          congr 1
          omega
        rw [hargeq]
        have hcont : (s.drop (o + 8)).take (c + 1) =
            (s.drop (o + 8)).take ((o + 9 + c) - (o + 8)) := by
          congr 1
          omega
        rw [hcont]
        exact RegexScan.found s o (o + 9 + c) _ hoP hcloseAbs (by omega) hfirst hlazy hrec

/-- C9 (amended): the CSP hash extractor emits exactly one entry per
non-overlapping, case-insensitive, non-greedy occurrence of
`<script>...</script>` in document order (the declarative `RegexScan`
relation), and each entry is the CSP source token
`'sha256-<digest>'` whose digest is the base64-encoded SHA-256 of the
block's content after replacing every CRLF with LF (`cspTokenOf`). -/
theorem csp_hashes_one_token_per_occurrence (html : String) :
    RegexScan html.data (scanScripts html) ∧
    getScriptCspHashes html = (scanScripts html).map cspTokenOf :=
  ⟨scanScriptsAux_sound (html.data.length + 1) html.data (Nat.lt_succ_self _),
   getScriptCspHashesAux_eq_map (html.data.length + 1) html.data⟩

/-- C9 counterexample: for the document `<script>x</script>` the single
returned entry is the quoted CSP token `'sha256-...'`, which is not the bare
base64-encoded SHA-256 digest of the content, as the claim states. -/
theorem csp_entry_is_token_not_bare_digest :
    getScriptCspHashes "<script>x</script>" =
      ["\x27sha256-LXEWQrcmsEQBYnyp+6wy9chTD7GQPMTbAiWHF5IaSIE=\x27"] ∧
    ("\x27sha256-LXEWQrcmsEQBYnyp+6wy9chTD7GQPMTbAiWHF5IaSIE=\x27" : String) ≠
      "LXEWQrcmsEQBYnyp+6wy9chTD7GQPMTbAiWHF5IaSIE=" := by decide

end WebClient
